import Mathlib

/-!
Verification model of the AgriChain startup orchestrator
(src/MAIN/start-agrichain.js).

The script is embedded shallowly:

* text chunks are lists of characters; the readiness check
  `output.includes(marker)` is `containsSubstr`;
* each readiness step (startGanache, startServer) is a small state
  machine `pstep` processing the events that can settle its promise:
  stdout data chunks, the close event, the startup-timeout callback and
  the post-match settle-delay callback (startGanache resolves 2 seconds
  after its marker, startServer resolves immediately);
* the value extraction of deployContract is `deployChunk` folded over
  stdout chunks (each chunk is matched separately, as in the source),
  closed by `deployClose` on the close event;
* updateServerConfig is the regex replace of the declaration shape
  `const networkId = <quote>[^<quote>]*<quote>;` modelled by
  `findDecl` (leftmost match, backtracking-free because the character
  class excludes the quote) and `replaceNetworkId`;
* createTestData is `createTestData`: one addFarmer call, then one
  awaited harvestItem call per record, aborting on the first rejected
  call and propagating the error (boolean false in the result);
* the module-level process variables and `cleanup` (lines 9-23) are
  `OrchProcs` and `cleanup`; `process.exit` terminates the process at
  the first call, so the status of a failed run is the status passed by
  `cleanup`, namely 0, and the later `process.exit(1)` of `main` is
  unreachable.
-/

namespace Agrichain

abbrev Str := List Char

/-- Model of JS `String.prototype.includes`: does `pat` occur as a
contiguous substring of the second argument? -/
def containsSubstr (pat : Str) : Str → Bool
  | [] => pat.isEmpty
  | c :: t => pat.isPrefixOf (c :: t) || containsSubstr pat t

/-- Readiness marker of the startGanache step (line 50). -/
def listeningMarker : Str := "Listening on".data

/-- Readiness marker of the startServer step (line 206). -/
def serverMarker : Str := "Server on port".data

/-- Cumulative readiness over a list of stdout chunks: the source tests
each chunk separately (lines 46-54 and 202-210), so readiness is ever
reached exactly when some single chunk contains the marker. -/
def chunkDetect (marker : Str) (chunks : List Str) : Bool :=
  chunks.any (fun c => containsSubstr marker c)

/-- The ways the promise of a readiness step can settle. -/
inductive POutcome where
  | success : POutcome
  | exitedEarly : Int → POutcome
  | startupTimeout : POutcome
deriving DecidableEq

/-- Per-step state: the readiness flag (ganacheReady / serverReady),
whether the 2-second settle timer has been scheduled (startGanache
only), and the promise outcome (none while pending). -/
structure PState where
  ready : Bool
  settleScheduled : Bool
  outcome : Option POutcome
deriving DecidableEq

/-- Events that can reach a readiness step: a stdout chunk, the close
event with its exit code (none models a null code after a signal), the
startup-timeout callback, and the settle-delay callback. -/
inductive PEvent where
  | chunk : Str → PEvent
  | exit : Option Int → PEvent
  | timeoutFire : PEvent
  | settleFire : PEvent

/-- Promise settlement: the first resolve or reject wins; later calls
on an already settled promise are no-ops. -/
def settleOnce (cur : Option POutcome) (o : POutcome) : Option POutcome :=
  match cur with
  | some x => some x
  | none => some o

/-- One event of a readiness step.  With delayedResolve the matching
chunk only schedules the settle timer (startGanache, line 52); without
it the promise resolves immediately (startServer, line 208).  The close
handler rejects only for an exit code that is neither 0 nor null
(lines 60-64 and 216-220); the timeout callback rejects only if the
readiness flag is still unset (lines 67-71 and 223-227). -/
def pstep (marker : Str) (delayedResolve : Bool) (st : PState) (e : PEvent) : PState :=
  match e with
  | PEvent.chunk s =>
      if containsSubstr marker s && !st.ready then
        if delayedResolve then
          ⟨true, true, st.outcome⟩
        else
          ⟨true, st.settleScheduled, settleOnce st.outcome POutcome.success⟩
      else st
  | PEvent.exit code =>
      match code with
      | some k =>
          if k = 0 then st
          else ⟨st.ready, st.settleScheduled, settleOnce st.outcome (POutcome.exitedEarly k)⟩
      | none => st
  | PEvent.timeoutFire =>
      if st.ready then st
      else ⟨st.ready, st.settleScheduled, settleOnce st.outcome POutcome.startupTimeout⟩
  | PEvent.settleFire =>
      if st.settleScheduled then
        ⟨st.ready, st.settleScheduled, settleOnce st.outcome POutcome.success⟩
      else st

def pInit : PState := ⟨false, false, none⟩

def runStep (marker : Str) (delayedResolve : Bool) (events : List PEvent) : PState :=
  events.foldl (pstep marker delayedResolve) pInit

/-- startGanache (lines 29-73): marker "Listening on", resolution
deferred by a 2-second settle timer. -/
def runGanacheStep (events : List PEvent) : PState :=
  runStep listeningMarker true events

/-- startServer (lines 191-229): marker "Server on port", immediate
resolution on match. -/
def runServerStep (events : List PEvent) : PState :=
  runStep serverMarker false events

/-- JS whitespace class (the characters relevant at these byte ranges). -/
def isJsSpace (c : Char) : Bool :=
  c == ' ' || c == '\t' || c == '\n' || c == '\r' || c == '\x0b' || c == '\x0c' || c == ' '

def isHexDigit (c : Char) : Bool :=
  c.isDigit || (decide ('a' ≤ c) && decide (c ≤ 'f')) || (decide ('A' ≤ c) && decide (c ≤ 'F'))

def addrLit : Str := "contract address:".data

def netIdLit : Str := "Network id:".data

/-- One attempt of the address pattern at the current position: the
literal, then the whitespace run, then 0x and exactly 40 hex digits
(line 92).  The character classes are disjoint from their followers, so
the greedy scan needs no backtracking. -/
def matchAddrAt (s : Str) : Option Str :=
  if addrLit.isPrefixOf s then
    match (s.drop addrLit.length).dropWhile isJsSpace with
    | '0' :: 'x' :: t =>
        if (t.take 40).length == 40 && (t.take 40).all isHexDigit then
          some ('0' :: 'x' :: t.take 40)
        else none
    | _ => none
  else none

/-- Leftmost match of the address pattern over a chunk. -/
def scanAddr : Str → Option Str
  | [] => none
  | c :: t =>
      match matchAddrAt (c :: t) with
      | some a => some a
      | none => scanAddr t

/-- One attempt of the network-identifier pattern at the current
position: the literal, the whitespace run, then at least one digit
(line 98); the capture is the maximal digit run. -/
def matchNetIdAt (s : Str) : Option Str :=
  if netIdLit.isPrefixOf s then
    if ((s.drop netIdLit.length).dropWhile isJsSpace).takeWhile Char.isDigit = [] then none
    else some (((s.drop netIdLit.length).dropWhile isJsSpace).takeWhile Char.isDigit)
  else none

/-- Leftmost match of the network-identifier pattern over a chunk. -/
def scanNetId : Str → Option Str
  | [] => none
  | c :: t =>
      match matchNetIdAt (c :: t) with
      | some n => some n
      | none => scanNetId t

/-- The two accumulator variables of deployContract (lines 84-85),
empty strings until a chunk matches. -/
structure DeployState where
  contractAddress : Str
  networkId : Str
deriving DecidableEq

def deployInit : DeployState := ⟨[], []⟩

/-- stdout handler of deployContract (lines 87-102): each chunk is
matched on its own; a match overwrites the accumulator, otherwise the
accumulator is kept. -/
def deployChunk (st : DeployState) (output : Str) : DeployState :=
  DeployState.mk
    (match scanAddr output with
     | some a => a
     | none => st.contractAddress)
    (match scanNetId output with
     | some n => n
     | none => st.networkId)

def deployScan (chunks : List Str) : DeployState :=
  chunks.foldl deployChunk deployInit

/-- close handler of deployContract (lines 108-116): resolve with the
accumulated values exactly when the exit code is 0, reject otherwise
(including a null code). -/
def deployClose (st : DeployState) (code : Option Int) : Except Str (Str × Str) :=
  if code = some 0 then Except.ok (st.contractAddress, st.networkId)
  else Except.error "Contract deployment failed".data

/-- The single-quote character of the declaration shape. -/
def quoteC : Char := '\''

def declBody : Str := "const networkId = ".data

/-- The literal head of the declaration pattern, opening quote
included. -/
def declHead : Str := declBody ++ [quoteC]

def notQuote (c : Char) : Bool := decide (c ≠ quoteC)

/-- The declaration text written for a value v (line 129). -/
def decl (v : Str) : Str := declHead ++ v ++ [quoteC, ';']

/-- Tail of a match attempt after the literal head: the maximal
quote-free run, then the closing quote and the semicolon.  Returns the
total match length.  The character class of the run excludes the quote,
so the regex engine's greedy scan is deterministic here. -/
def declTail (rest : Str) : Option Nat :=
  if (rest.drop (rest.takeWhile notQuote).length).take 2 = [quoteC, ';'] then
    some (declHead.length + (rest.takeWhile notQuote).length + 2)
  else none

/-- One attempt of the declaration pattern at the current position. -/
def matchDeclAt (s : Str) : Option Nat :=
  if declHead.isPrefixOf s then declTail (s.drop declHead.length) else none

/-- Leftmost match of the declaration pattern: position and length. -/
def findDecl : Str → Option (Nat × Nat)
  | [] => none
  | c :: t =>
      match matchDeclAt (c :: t) with
      | some len => some (0, len)
      | none => (findDecl t).map (fun pl => (pl.1 + 1, pl.2))

/-- JS `content.replace(pattern, ...)` with a non-global regex: replace
the leftmost match if any, otherwise return the content unchanged
(lines 127-130).  The replacement inserts the value literally, which
matches the source as long as the value contains no dollar sign (JS
would expand replacement patterns such as a dollar followed by an
ampersand). -/
def replaceNetworkId (s v : Str) : Str :=
  match findDecl s with
  | some (p, len) => s.take p ++ decl v ++ s.drop (p + len)
  | none => s

/-- updateServerConfig (lines 120-134): read the artifact, run the
replace, write the result back unconditionally.  The returned value is
the content written. -/
def updateServerConfig (content v : Str) : Str := replaceNetworkId content v

/-- A record seeded by createTestData (lines 162-166). -/
structure FarmItem where
  name : Str
  origin : Str
  price : Nat
  quality : Str
deriving DecidableEq

/-- The state-mutating contract calls issued by createTestData. -/
inductive ChainCall where
  | addFarmer : Str → ChainCall
  | harvestItem : FarmItem → ChainCall
deriving DecidableEq

def farmerAccount : Str := "0x90F8bf6A479f320ead074411a4B0e7944Ea8c9C1".data

def mangoItem : FarmItem := ⟨"Mango".data, "Mumbai".data, 1000, "Premium".data⟩

def riceItem : FarmItem := ⟨"Rice".data, "Punjab".data, 500, "Organic".data⟩

def wheatItem : FarmItem := ⟨"Wheat".data, "Haryana".data, 300, "Standard".data⟩

def testItems : List FarmItem := [mangoItem, riceItem, wheatItem]

/-- The seeding loop (lines 168-181): one awaited harvestItem call per
record, in order; a rejected call stops the loop and the error
propagates (boolean false).  The first component is the list of calls
actually submitted, in submission order. -/
def seedItems (ack : ChainCall → Bool) : List FarmItem → List ChainCall → List ChainCall × Bool
  | [], acc => (acc, true)
  | it :: rest, acc =>
      if ack (ChainCall.harvestItem it) then
        seedItems ack rest (acc ++ [ChainCall.harvestItem it])
      else (acc ++ [ChainCall.harvestItem it], false)

/-- createTestData (lines 136-189) after the artifact check: the
awaited addFarmer call (line 156), then the seeding loop; a rejected
call is caught, logged and rethrown (lines 185-188), modelled by the
boolean false. -/
def createTestData (ack : ChainCall → Bool) (items : List FarmItem) : List ChainCall × Bool :=
  if ack (ChainCall.addFarmer farmerAccount) then
    seedItems ack items [ChainCall.addFarmer farmerAccount]
  else ([ChainCall.addFarmer farmerAccount], false)

/-- A chain that acknowledges every call. -/
def ackAll : ChainCall → Bool := fun _ => true

/-- A chain that rejects exactly the harvest call for Rice. -/
def ackRejectRice : ChainCall → Bool
  | ChainCall.addFarmer _ => true
  | ChainCall.harvestItem it => !(it.name == "Rice".data)

/-- Labels of the three processes the script spawns. -/
inductive ProcName where
  | ganache | server | migrate
deriving DecidableEq

/-- The module-level process variables (line 9).  deployContract's
migrateProcess is a local const (line 79) and has no slot here: no
assignment to a module-level variable exists for it in the source. -/
structure OrchProcs where
  ganacheProcess : Option Nat
  serverProcess : Option Nat
deriving DecidableEq

/-- Result of cleanup: which processes were sent SIGTERM, in order, and
the status passed to process.exit. -/
structure CleanupResult where
  signaled : List ProcName
  exitCode : Nat
deriving DecidableEq

/-- cleanup (lines 12-23): SIGTERM the ganache process if defined, then
the server process if defined, then process.exit(0). -/
def cleanup (st : OrchProcs) : CleanupResult :=
  CleanupResult.mk
    ((if st.ganacheProcess.isSome then [ProcName.ganache] else []) ++
     (if st.serverProcess.isSome then [ProcName.server] else []))
    0

/-- Effect of deployContract's spawn (lines 79-82) on the module-level
process variables: none, since migrateProcess is a local const. -/
def deployContractRegister (st : OrchProcs) : OrchProcs := st

/-- Exit status of the run when any step fails: main's catch block
(lines 253-257) calls cleanup, whose final statement process.exit(0)
terminates the process; the process.exit(1) on line 256 never runs. -/
def mainFailureExitCode (st : OrchProcs) : Nat := (cleanup st).exitCode

/-- An artifact text that contains the declaration shape once (the
leftmost occurrence of the literal head is a stray, unterminated one):
the text is const networkId = (quote)A const networkId = (quote)old(quote); -/
def cexArtifact : Str :=
  declBody ++ [quoteC] ++ "A ".data ++ declBody ++ [quoteC] ++ "old".data ++ [quoteC, ';']

/-- A value starting with a semicolon. -/
def cexValue : Str := [';', 'x']

/-! ## Helper lemmas about list scanning -/

lemma isPrefixOf_append_self : ∀ (l t : Str), l.isPrefixOf (l ++ t) = true
  | [], _ => by simp [List.isPrefixOf]
  | a :: l', t => by
      simp only [List.cons_append, List.isPrefixOf, beq_self_eq_true, Bool.true_and]
      exact isPrefixOf_append_self l' t

lemma isPrefixOf_exists : ∀ (l s : Str), l.isPrefixOf s = true → ∃ t, s = l ++ t
  | [], s, _ => ⟨s, rfl⟩
  | a :: l', [], h => by simp [List.isPrefixOf] at h
  | a :: l', c :: s', h => by
      simp only [List.isPrefixOf, Bool.and_eq_true, beq_iff_eq] at h
      obtain ⟨t, ht⟩ := isPrefixOf_exists l' s' h.2
      exact ⟨t, by simp [h.1, ht]⟩

lemma isPrefixOf_extend : ∀ (l s b : Str), l.isPrefixOf s = true → l.isPrefixOf (s ++ b) = true
  | [], _, _, _ => by simp [List.isPrefixOf]
  | a :: l', [], b, h => by simp [List.isPrefixOf] at h
  | a :: l', c :: s', b, h => by
      simp only [List.isPrefixOf, Bool.and_eq_true, beq_iff_eq] at h
      simp only [List.cons_append, List.isPrefixOf, Bool.and_eq_true, beq_iff_eq]
      exact ⟨h.1, isPrefixOf_extend l' s' b h.2⟩

lemma isPrefixOf_append_of_le : ∀ (l a b : Str), l.length ≤ a.length →
    l.isPrefixOf (a ++ b) = l.isPrefixOf a
  | [], _, _, _ => by simp [List.isPrefixOf]
  | x :: l', [], b, h => by simp at h
  | x :: l', y :: a', b, h => by
      simp only [List.length_cons, Nat.add_le_add_iff_right] at h
      simp only [List.cons_append, List.isPrefixOf, List.append_eq]
      rw [isPrefixOf_append_of_le l' a' b h]

lemma containsSubstr_append_left : ∀ (pat a b : Str),
    containsSubstr pat a = true → containsSubstr pat (a ++ b) = true
  | pat, [], b, h => by
      simp only [containsSubstr, List.isEmpty_iff] at h
      subst h
      cases b with
      | nil => rfl
      | cons c t => simp [containsSubstr, List.isPrefixOf]
  | pat, c :: a', b, h => by
      simp only [containsSubstr, Bool.or_eq_true] at h
      rcases h with h | h
      · simp only [List.cons_append, containsSubstr, Bool.or_eq_true]
        exact Or.inl (by
          have := isPrefixOf_extend pat (c :: a') b h
          simpa using this)
      · simp only [List.cons_append, containsSubstr, Bool.or_eq_true]
        exact Or.inr (containsSubstr_append_left pat a' b h)

lemma containsSubstr_append_right : ∀ (pat a b : Str),
    containsSubstr pat b = true → containsSubstr pat (a ++ b) = true
  | pat, [], b, h => h
  | pat, c :: a', b, h => by
      simp only [List.cons_append, containsSubstr, Bool.or_eq_true]
      exact Or.inr (containsSubstr_append_right pat a' b h)

lemma drop_append_of_le : ∀ (n : Nat) (a b : Str), n ≤ a.length →
    (a ++ b).drop n = a.drop n ++ b
  | 0, _, _, _ => rfl
  | n + 1, [], b, h => by simp at h
  | n + 1, x :: a', b, h => by
      simp only [List.cons_append, List.drop_succ_cons]
      exact drop_append_of_le n a' b (by simpa using h)

/-! ## Helper lemmas about the declaration matcher -/

lemma takeWhile_append_quote : ∀ (R y : Str), quoteC ∉ R →
    (R ++ quoteC :: y).takeWhile notQuote = R
  | [], y, _ => by
      simp [List.takeWhile_cons, notQuote]
  | a :: R', y, h => by
      have ha : a ≠ quoteC := fun hc => h (by simp [hc])
      simp only [List.cons_append]
      rw [List.takeWhile_cons_of_pos (by simp [notQuote, ha])]
      rw [takeWhile_append_quote R' y (fun hc => h (by simp [hc]))]

lemma takeWhile_self_decomp : ∀ (l : Str),
    l = l.takeWhile notQuote ++ l.drop (l.takeWhile notQuote).length
  | [] => rfl
  | a :: t => by
      by_cases ha : notQuote a = true
      · rw [List.takeWhile_cons_of_pos ha]
        simp only [List.length_cons, List.drop_succ_cons, List.cons_append]
        exact congrArg (a :: ·) (takeWhile_self_decomp t)
      · rw [List.takeWhile_cons_of_neg ha]
        simp

lemma mem_takeWhile_not_quote (l : Str) : quoteC ∉ l.takeWhile notQuote := by
  intro h
  have := List.mem_takeWhile_imp h
  simp [notQuote] at this

lemma first_quote_split : ∀ (l : Str), quoteC ∈ l →
    ∃ R U, l = R ++ quoteC :: U ∧ quoteC ∉ R
  | [], h => by simp at h
  | a :: t, h => by
      by_cases ha : a = quoteC
      · exact ⟨[], t, by simp [ha], by simp⟩
      · have ht : quoteC ∈ t := by
          rcases List.mem_cons.mp h with h1 | h1
          · exact absurd h1.symm ha
          · exact h1
        obtain ⟨R, U, hRU, hR⟩ := first_quote_split t ht
        refine ⟨a :: R, U, by simp [hRU], ?_⟩
        intro hm
        rcases List.mem_cons.mp hm with h1 | h1
        · exact ha h1.symm
        · exact hR h1

lemma declTail_closing (w r : Str) (hw : quoteC ∉ w) :
    declTail (w ++ quoteC :: ';' :: r) = some (declHead.length + w.length + 2) := by
  unfold declTail
  rw [takeWhile_append_quote w (';' :: r) hw, List.drop_left]
  simp [List.take]

lemma decl_length (v : Str) : (decl v).length = declHead.length + v.length + 2 := by
  simp [decl]
  omega

lemma matchDeclAt_decl_self (v r : Str) (hv : quoteC ∉ v) :
    matchDeclAt (decl v ++ r) = some ((decl v).length) := by
  have h1 : decl v ++ r = declHead ++ (v ++ quoteC :: ';' :: r) := by
    simp [decl]
  rw [h1]
  unfold matchDeclAt
  rw [isPrefixOf_append_self, if_pos rfl, List.drop_left, declTail_closing v r hv,
    decl_length]

lemma matchDeclAt_shape (B z : Str) (hB : declHead.length ≤ B.length) :
    matchDeclAt (B ++ quoteC :: z)
      = if declHead.isPrefixOf B = true then
          declTail (B.drop declHead.length ++ quoteC :: z)
        else none := by
  unfold matchDeclAt
  rw [isPrefixOf_append_of_le declHead B (quoteC :: z) hB,
    drop_append_of_le declHead.length B (quoteC :: z) hB]

lemma declTail_quote_in (U z₁ z₂ : Str) (h : quoteC ∈ U) :
    declTail (U ++ quoteC :: z₁) = declTail (U ++ quoteC :: z₂) := by
  obtain ⟨R, U₃, rfl, hR⟩ := first_quote_split U h
  have e : ∀ z : Str, (R ++ quoteC :: U₃) ++ quoteC :: z = R ++ quoteC :: (U₃ ++ quoteC :: z) := by
    intro z; simp
  rw [e z₁, e z₂]
  unfold declTail
  rw [takeWhile_append_quote R _ hR, takeWhile_append_quote R _ hR, List.drop_left,
    List.drop_left]
  cases U₃ with
  | nil => simp [List.take]
  | cons c U₃' => simp [List.take]

lemma declTail_safe_value (U v r : Str) (hU : quoteC ∉ U) (hv0 : v.head? ≠ some ';') :
    declTail (U ++ quoteC :: (v ++ quoteC :: ';' :: r)) = none := by
  unfold declTail
  rw [takeWhile_append_quote U _ hU, List.drop_left]
  cases v with
  | nil =>
      rw [if_neg]
      simp [List.take, quoteC]
  | cons c v' =>
      have hc : c ≠ ';' := by simpa using hv0
      rw [if_neg]
      simp [List.take, hc]

lemma matchDeclAt_none_swap (u w v rest : Str) (hu : u ≠ [])
    (hv0 : v.head? ≠ some ';')
    (hnone : matchDeclAt (u ++ decl w ++ rest) = none) :
    matchDeclAt (u ++ decl v ++ rest) = none := by
  have hre : ∀ x : Str,
      u ++ decl x ++ rest = (u ++ declBody) ++ quoteC :: (x ++ quoteC :: ';' :: rest) := by
    intro x; simp [decl, declHead]
  have hB : declHead.length ≤ (u ++ declBody).length := by
    have h1 : 0 < u.length := List.length_pos.mpr hu
    simp only [declHead, List.length_append, List.length_cons, List.length_nil]
    omega
  rw [hre w, matchDeclAt_shape _ _ hB] at hnone
  rw [hre v, matchDeclAt_shape _ _ hB]
  by_cases hp : declHead.isPrefixOf (u ++ declBody) = true
  · rw [if_pos hp] at hnone ⊢
    by_cases hq : quoteC ∈ (u ++ declBody).drop declHead.length
    · rw [declTail_quote_in _ _ (w ++ quoteC :: ';' :: rest) hq]
      exact hnone
    · exact declTail_safe_value _ v rest hq hv0
  · rw [if_neg hp]

lemma matchDeclAt_nil : matchDeclAt [] = none := by decide

lemma findDecl_some_zero (s : Str) (len : Nat) (h : matchDeclAt s = some len) :
    findDecl s = some (0, len) := by
  cases s with
  | nil => rw [matchDeclAt_nil] at h; exact absurd h (by simp)
  | cons c t => simp [findDecl, h]

lemma findDecl_cons_none (c : Char) (t : Str) (h : matchDeclAt (c :: t) = none) :
    findDecl (c :: t) = (findDecl t).map (fun pl => (pl.1 + 1, pl.2)) := by
  simp [findDecl, h]

lemma matchDeclAt_some_decomp (s : Str) (len : Nat) (h : matchDeclAt s = some len) :
    ∃ w r, quoteC ∉ w ∧ s = decl w ++ r ∧ len = (decl w).length := by
  unfold matchDeclAt at h
  by_cases hp : declHead.isPrefixOf s = true
  case neg => rw [if_neg hp] at h; exact absurd h (by simp)
  rw [if_pos hp] at h
  obtain ⟨t, rfl⟩ := isPrefixOf_exists declHead s hp
  rw [List.drop_left] at h
  unfold declTail at h
  by_cases hc : (t.drop (t.takeWhile notQuote).length).take 2 = [quoteC, ';']
  case neg => rw [if_neg hc] at h; exact absurd h (by simp)
  rw [if_pos hc] at h
  have hlen : len = declHead.length + (t.takeWhile notQuote).length + 2 := by
    have := Option.some.inj h
    omega
  have hd : t.drop (t.takeWhile notQuote).length
      = quoteC :: ';' :: (t.drop (t.takeWhile notQuote).length).drop 2 := by
    have h2 := List.take_append_drop 2 (t.drop (t.takeWhile notQuote).length)
    rw [hc] at h2
    exact h2.symm
  refine ⟨t.takeWhile notQuote, (t.drop (t.takeWhile notQuote).length).drop 2,
    mem_takeWhile_not_quote t, ?_, ?_⟩
  · have ht := takeWhile_self_decomp t
    conv_lhs => rw [ht]
    rw [hd]
    simp [decl]
  · rw [hlen, decl_length]

lemma findDecl_decomp : ∀ (s : Str) (p len : Nat), findDecl s = some (p, len) →
    ∃ w, quoteC ∉ w ∧ len = (decl w).length ∧ (s.take p).length = p ∧
      s = s.take p ++ decl w ++ s.drop (p + len)
  | [], p, len, h => by simp [findDecl] at h
  | c :: t, p, len, h => by
      cases hm : matchDeclAt (c :: t) with
      | some len₀ =>
          rw [findDecl_some_zero _ _ hm] at h
          obtain ⟨hp, hlen⟩ : p = 0 ∧ len = len₀ := by
            have := Option.some.inj h
            constructor <;> [exact (Prod.mk.inj this.symm).1; exact (Prod.mk.inj this.symm).2]
          subst hp; subst hlen
          obtain ⟨w, r, hw, hdec, hlen⟩ := matchDeclAt_some_decomp _ _ hm
          refine ⟨w, hw, hlen, by simp, ?_⟩
          simp only [List.take_zero, List.nil_append, Nat.zero_add]
          rw [hdec, hlen, List.drop_left]
      | none =>
          rw [findDecl_cons_none c t hm] at h
          cases hft : findDecl t with
          | none => rw [hft] at h; simp at h
          | some pl =>
              obtain ⟨p', len'⟩ := pl
              rw [hft] at h
              simp only [Option.map_some'] at h
              obtain ⟨hp, hlen⟩ : p = p' + 1 ∧ len = len' := by
                have := Option.some.inj h
                constructor <;> [exact (Prod.mk.inj this.symm).1; exact (Prod.mk.inj this.symm).2]
              subst hp; subst hlen
              obtain ⟨w, hw, hlen, hlp, ht⟩ := findDecl_decomp t p' len hft
              refine ⟨w, hw, hlen, ?_, ?_⟩
              · rw [List.take_succ_cons]
                simp [hlp]
              · rw [List.take_succ_cons]
                have harith : p' + 1 + len = (p' + len) + 1 := by omega
                rw [harith, List.drop_succ_cons]
                simp only [List.cons_append]
                exact congrArg (c :: ·) ht

lemma findDecl_replace : ∀ (s v : Str) (p len : Nat),
    findDecl s = some (p, len) → quoteC ∉ v → v.head? ≠ some ';' →
    findDecl (s.take p ++ decl v ++ s.drop (p + len)) = some (p, (decl v).length)
  | [], v, p, len, h, _, _ => by simp [findDecl] at h
  | c :: t, v, p, len, h, hv, hv0 => by
      cases hm : matchDeclAt (c :: t) with
      | some len₀ =>
          rw [findDecl_some_zero _ _ hm] at h
          obtain ⟨hp, hlen⟩ : p = 0 ∧ len = len₀ := by
            have := Option.some.inj h
            constructor <;> [exact (Prod.mk.inj this.symm).1; exact (Prod.mk.inj this.symm).2]
          subst hp; subst hlen
          simp only [List.take_zero, List.nil_append, Nat.zero_add]
          exact findDecl_some_zero _ _ (matchDeclAt_decl_self v _ hv)
      | none =>
          rw [findDecl_cons_none c t hm] at h
          cases hft : findDecl t with
          | none => rw [hft] at h; simp at h
          | some pl =>
              obtain ⟨p', len'⟩ := pl
              rw [hft] at h
              simp only [Option.map_some'] at h
              obtain ⟨hp, hlen⟩ : p = p' + 1 ∧ len = len' := by
                have := Option.some.inj h
                constructor <;> [exact (Prod.mk.inj this.symm).1; exact (Prod.mk.inj this.symm).2]
              subst hp; subst hlen
              have harith : p' + 1 + len = (p' + len) + 1 := by omega
              rw [List.take_succ_cons, harith, List.drop_succ_cons]
              have hinner := findDecl_replace t v p' len hft hv hv0
              obtain ⟨w, hw, hlenw, hlp, ht⟩ := findDecl_decomp t p' len hft
              have hcons : (c :: t.take p') ++ decl v ++ t.drop (p' + len)
                  = c :: (t.take p' ++ decl v ++ t.drop (p' + len)) := by simp
              have hmnone : matchDeclAt ((c :: t.take p') ++ decl v ++ t.drop (p' + len)) = none := by
                apply matchDeclAt_none_swap (c :: t.take p') w v (t.drop (p' + len))
                  (by simp) hv0
                have : (c :: t.take p') ++ decl w ++ t.drop (p' + len) = c :: t := by
                  conv_rhs => rw [show t = t.take p' ++ decl w ++ t.drop (p' + len) from ht]
                  simp
                rw [this]
                exact hm
              rw [hcons] at hmnone
              rw [show (c :: t.take p') ++ decl v ++ t.drop (p' + len)
                    = c :: (t.take p' ++ decl v ++ t.drop (p' + len)) from hcons,
                findDecl_cons_none _ _ hmnone, hinner]
              rfl

/-! ## Helper lemmas about the seeder and the deployment scanner -/

lemma seedItems_all (ack : ChainCall → Bool) :
    ∀ (items : List FarmItem) (acc : List ChainCall),
      (∀ x ∈ items, ack (ChainCall.harvestItem x) = true) →
      seedItems ack items acc = (acc ++ items.map ChainCall.harvestItem, true)
  | [], acc, _ => by simp [seedItems]
  | it :: rest, acc, h => by
      have h1 : ack (ChainCall.harvestItem it) = true := h it (by simp)
      rw [seedItems, if_pos h1,
        seedItems_all ack rest _ (fun x hx => h x (by simp [hx]))]
      simp

lemma seedItems_abort (ack : ChainCall → Bool) :
    ∀ (pre : List FarmItem) (bad : FarmItem) (post : List FarmItem) (acc : List ChainCall),
      (∀ x ∈ pre, ack (ChainCall.harvestItem x) = true) →
      ack (ChainCall.harvestItem bad) = false →
      seedItems ack (pre ++ bad :: post) acc
        = (acc ++ pre.map ChainCall.harvestItem ++ [ChainCall.harvestItem bad], false)
  | [], bad, post, acc, _, hbad => by
      simp only [List.nil_append, List.map_nil, List.append_nil]
      rw [seedItems, if_neg (by simp [hbad])]
  | it :: pre', bad, post, acc, hpre, hbad => by
      have h1 : ack (ChainCall.harvestItem it) = true := hpre it (by simp)
      simp only [List.cons_append]
      rw [seedItems, if_pos h1,
        seedItems_abort ack pre' bad post _ (fun x hx => hpre x (by simp [hx])) hbad]
      simp

lemma deployScan_none (chunks : List Str)
    (ha : ∀ c ∈ chunks, scanAddr c = none) (hn : ∀ c ∈ chunks, scanNetId c = none) :
    deployScan chunks = deployInit := by
  unfold deployScan
  induction chunks with
  | nil => rfl
  | cons c cs ih =>
      rw [List.foldl_cons]
      have hc : deployChunk deployInit c = deployInit := by
        simp [deployChunk, ha c (by simp), hn c (by simp), deployInit]
      rw [hc]
      exact ih (fun x hx => ha x (by simp [hx])) (fun x hx => hn x (by simp [hx]))

/-! ## Claim theorems -/

/-- C1: the claim states that any step failure terminates the run with
a nonzero exit status.  The code disagrees: main's catch block calls
cleanup, and cleanup's final statement is process.exit(0), which
terminates the process before the process.exit(1) on line 256 can run.
So for every state of the process variables, a step failure exits with
status 0 — the dead process.exit(1) shows the nonzero status was the
intent, making this a bug in the code. -/
theorem main_failure_exit_status_zero (st : OrchProcs) : mainFailureExitCode st = 0 := rfl

/-- C2 counterexample: with the ganache process registered and the
deployment step's spawn performed (which updates no module-level
variable), cleanup signals only the ganache process; the migrate
process is not reachable by teardown. -/
theorem migrate_process_not_signaled_cex :
    deployContractRegister ⟨some 1, none⟩ = ⟨some 1, none⟩ ∧
    (cleanup (deployContractRegister ⟨some 1, none⟩)).signaled = [ProcName.ganache] ∧
    ProcName.migrate ∉ (cleanup (deployContractRegister ⟨some 1, none⟩)).signaled := by
  refine ⟨rfl, rfl, ?_⟩
  decide

/-- C2 amended: only the network and server processes are stored in
module-level variables on spawn and receive SIGTERM during teardown;
the deployment process is a local variable, never registered, and is
never signaled by cleanup, whatever the process state. -/
theorem cleanup_signals_only_registered (st : OrchProcs) :
    ProcName.migrate ∉ (cleanup st).signaled ∧
    (st.ganacheProcess.isSome = true → ProcName.ganache ∈ (cleanup st).signaled) ∧
    (st.serverProcess.isSome = true → ProcName.server ∈ (cleanup st).signaled) := by
  obtain ⟨g, s⟩ := st
  refine ⟨?_, ?_, ?_⟩ <;> cases g <;> cases s <;> simp [cleanup]

theorem cleanup_signals_only_registered_witness :
    ProcName.migrate ∉ (cleanup ⟨some 1, some 2⟩).signaled ∧
    ProcName.ganache ∈ (cleanup ⟨some 1, some 2⟩).signaled ∧
    ProcName.server ∈ (cleanup ⟨some 1, some 2⟩).signaled :=
  ⟨(cleanup_signals_only_registered ⟨some 1, some 2⟩).1,
   (cleanup_signals_only_registered ⟨some 1, some 2⟩).2.1 (by decide),
   (cleanup_signals_only_registered ⟨some 1, some 2⟩).2.2 (by decide)⟩

/-- C3 counterexample: the readiness marker split across two chunks is
missed by the per-chunk matcher of the source, although the unsplit
text contains it; the ganache step machine stays unready on the split
chunks.  Chunk-boundary invariance fails. -/
theorem marker_split_across_chunks_cex :
    "Listen".data ++ "ing on".data = listeningMarker ∧
    chunkDetect listeningMarker ["Listen".data, "ing on".data] = false ∧
    containsSubstr listeningMarker ("Listen".data ++ "ing on".data) = true ∧
    (runGanacheStep [PEvent.chunk "Listen".data, PEvent.chunk "ing on".data]).ready = false := by
  refine ⟨by decide, by decide, by decide, by decide⟩

/-- C3 amended: matching is per chunk, so only one direction of
chunk-boundary invariance holds — whenever the per-chunk matcher
detects the marker, scanning the unsplit text detects it too; the
converse fails for splittings that cut the marker. -/
theorem chunk_detect_implies_whole_text (marker : Str) (chunks : List Str)
    (h : chunkDetect marker chunks = true) :
    containsSubstr marker chunks.flatten = true := by
  induction chunks with
  | nil => simp [chunkDetect] at h
  | cons c cs ih =>
      rw [List.flatten_cons]
      simp only [chunkDetect, List.any_cons, Bool.or_eq_true] at h
      rcases h with h | h
      · exact containsSubstr_append_left marker c cs.flatten h
      · exact containsSubstr_append_right marker c cs.flatten (ih (by simpa [chunkDetect] using h))

theorem chunk_detect_implies_whole_text_witness :
    chunkDetect listeningMarker ["Ganache ".data, "Listening on 127.0.0.1:7545".data] = true ∧
    containsSubstr listeningMarker
      (["Ganache ".data, "Listening on 127.0.0.1:7545".data]).flatten = true :=
  ⟨by decide, chunk_detect_implies_whole_text listeningMarker _ (by decide)⟩

/-- C4 counterexample: a process exit with code 0 before the readiness
marker does not reject the step promise — the step stays pending, and
only the later timeout fails it, with a startup timeout rather than a
process-exited-early error. -/
theorem exit_zero_before_marker_cex :
    (runServerStep [PEvent.exit (some 0)]).outcome = none ∧
    (runServerStep [PEvent.exit (some 0), PEvent.timeoutFire]).outcome
      = some POutcome.startupTimeout :=
  ⟨by decide, by decide⟩

/-- C4 amended: before a match, an exit with a nonzero code fails the
step with the exited-early error; an exit with code 0 or a null code
leaves the step pending, and the step then fails with the startup
timeout when the timer fires — so it does not hang forever, but the
failure is the timeout, not the exited-early error. -/
theorem exit_before_marker_outcomes (marker : Str) (d : Bool) (st : PState)
    (hpend : st.outcome = none) (hready : st.ready = false) :
    (∀ k : Int, k ≠ 0 → (pstep marker d st (PEvent.exit (some k))).outcome
        = some (POutcome.exitedEarly k)) ∧
    (pstep marker d st (PEvent.exit (some 0))).outcome = none ∧
    (pstep marker d st (PEvent.exit none)).outcome = none ∧
    (pstep marker d (pstep marker d st (PEvent.exit (some 0))) PEvent.timeoutFire).outcome
        = some POutcome.startupTimeout := by
  refine ⟨?_, ?_, ?_, ?_⟩
  · intro k hk
    simp [pstep, hk, settleOnce, hpend]
  · simp [pstep, hpend]
  · simp [pstep, hpend]
  · simp [pstep, hready, settleOnce, hpend]

theorem exit_before_marker_outcomes_witness :
    (pstep serverMarker false pInit (PEvent.exit (some 2))).outcome
      = some (POutcome.exitedEarly 2) ∧
    (pstep serverMarker false pInit (PEvent.exit (some 0))).outcome = none :=
  ⟨(exit_before_marker_outcomes serverMarker false pInit rfl rfl).1 2 (by decide),
   (exit_before_marker_outcomes serverMarker false pInit rfl rfl).2.1⟩

/-- C5 counterexample: on an artifact without the declaration shape,
the patcher reports no error and writes the artifact back unchanged. -/
theorem config_pattern_absent_noop_cex :
    findDecl "module.exports = 1;".data = none ∧
    updateServerConfig "module.exports = 1;".data "5777".data = "module.exports = 1;".data :=
  ⟨by decide, by decide⟩

/-- C5 amended: when the declaration shape is absent the patcher
silently no-ops — the content written back equals the input, and no
failure of any kind is raised (the source has no error path here). -/
theorem config_pattern_absent_writes_unchanged (s v : Str) (h : findDecl s = none) :
    updateServerConfig s v = s := by
  simp [updateServerConfig, replaceNetworkId, h]

theorem config_pattern_absent_writes_unchanged_witness :
    updateServerConfig "server listens".data "5777".data = "server listens".data :=
  config_pattern_absent_writes_unchanged _ _ (by decide)

/-- C6: the seeder issues the registration call first and then one
harvest call per record in input order, awaiting each acknowledgment
(the model is sequential by construction, mirroring the awaited sends);
with every call acknowledged it issues exactly N+1 calls; a rejected
registration stops everything after one call; a first rejected record
stops the loop right there, the remaining records are never submitted,
and the error propagates (result flag false). -/
theorem seeder_call_sequence (ack : ChainCall → Bool) (items : List FarmItem) :
    ((∀ c, ack c = true) →
        createTestData ack items
          = (ChainCall.addFarmer farmerAccount :: items.map ChainCall.harvestItem, true)) ∧
    ((∀ c, ack c = true) → (createTestData ack items).1.length = items.length + 1) ∧
    (ack (ChainCall.addFarmer farmerAccount) = false →
        createTestData ack items = ([ChainCall.addFarmer farmerAccount], false)) ∧
    (∀ pre bad post, items = pre ++ bad :: post →
        ack (ChainCall.addFarmer farmerAccount) = true →
        (∀ x ∈ pre, ack (ChainCall.harvestItem x) = true) →
        ack (ChainCall.harvestItem bad) = false →
        createTestData ack items
          = (ChainCall.addFarmer farmerAccount ::
              (pre.map ChainCall.harvestItem ++ [ChainCall.harvestItem bad]), false)) := by
  refine ⟨?_, ?_, ?_, ?_⟩
  · intro hall
    rw [createTestData, if_pos (hall _), seedItems_all ack items _ (fun x _ => hall _)]
    simp
  · intro hall
    rw [createTestData, if_pos (hall _), seedItems_all ack items _ (fun x _ => hall _)]
    simp
  · intro hreg
    rw [createTestData, if_neg (by simp [hreg])]
  · intro pre bad post hitems hreg hpre hbad
    subst hitems
    rw [createTestData, if_pos hreg, seedItems_abort ack pre bad post _ hpre hbad]
    simp

theorem seeder_call_sequence_witness :
    createTestData ackAll testItems
      = (ChainCall.addFarmer farmerAccount :: testItems.map ChainCall.harvestItem, true) ∧
    createTestData ackRejectRice testItems
      = (ChainCall.addFarmer farmerAccount ::
          ([mangoItem].map ChainCall.harvestItem ++ [ChainCall.harvestItem riceItem]), false) :=
  ⟨(seeder_call_sequence ackAll testItems).1 (fun _ => rfl),
   (seeder_call_sequence ackRejectRice testItems).2.2.2 [mangoItem] riceItem [wheatItem]
     rfl rfl (by decide) (by decide)⟩

/-- C7 counterexample: patching is not idempotent for every artifact
containing the declaration and every value.  On an artifact whose text
has a stray unterminated literal head before the real declaration, and
a value starting with a semicolon, the first patch creates a new
leftmost match spanning the stray head, so the second patch rewrites a
different span and the results differ. -/
theorem config_patch_not_idempotent_cex :
    updateServerConfig (updateServerConfig cexArtifact cexValue) cexValue
      ≠ updateServerConfig cexArtifact cexValue := by
  decide

/-- C7 amended: patching is idempotent for every artifact containing
the declaration shape, provided the injected value contains no single
quote, does not start with a semicolon, and contains no dollar sign
(the last condition marks where the model's literal insertion matches
JS replacement semantics); every digit-string network identifier
produced by the deployment step satisfies all three. -/
theorem config_patch_idempotent_for_safe_values (s v : Str)
    (hs : (findDecl s).isSome = true) (hv : quoteC ∉ v) (hv0 : v.head? ≠ some ';')
    (hdollar : '$' ∉ v) :
    updateServerConfig (updateServerConfig s v) v = updateServerConfig s v := by
  obtain ⟨pl, hfd⟩ := Option.isSome_iff_exists.mp hs
  obtain ⟨p, len⟩ := pl
  obtain ⟨w, hw, hlen, hlenp, hdecomp⟩ := findDecl_decomp s p len hfd
  have h1 : updateServerConfig s v = s.take p ++ decl v ++ s.drop (p + len) := by
    simp [updateServerConfig, replaceNetworkId, hfd]
  have h2 := findDecl_replace s v p len hfd hv hv0
  have h3 : updateServerConfig (s.take p ++ decl v ++ s.drop (p + len)) v
      = (s.take p ++ decl v ++ s.drop (p + len)).take p ++ decl v
        ++ (s.take p ++ decl v ++ s.drop (p + len)).drop (p + (decl v).length) := by
    unfold updateServerConfig replaceNetworkId
    rw [h2]
  have ht : (s.take p ++ decl v ++ s.drop (p + len)).take p = s.take p := by
    rw [List.append_assoc]
    exact List.take_left' hlenp
  have hd : (s.take p ++ decl v ++ s.drop (p + len)).drop (p + (decl v).length)
      = s.drop (p + len) := by
    apply List.drop_left'
    simp [List.length_append, hlenp]
  rw [h1, h3, ht, hd]

theorem config_patch_idempotent_for_safe_values_witness :
    (findDecl (decl "5777".data)).isSome = true ∧
    updateServerConfig (updateServerConfig (decl "5777".data) "5777".data) "5777".data
      = updateServerConfig (decl "5777".data) "5777".data :=
  ⟨by decide,
   config_patch_idempotent_for_safe_values (decl "5777".data) "5777".data
     (by decide) (by decide) (by decide) (by decide)⟩

/-- C8 counterexample: the outcome is not always decided by whichever
of match, exit and timeout fires first.  In the ganache step the match
only schedules the 2-second settle timer; a nonzero exit inside that
window rejects the already-matched step, so the match fired first yet
the outcome is the exit's failure. -/
theorem exit_during_settle_window_cex :
    (runGanacheStep [PEvent.chunk "Listening on 127.0.0.1:7545".data]).ready = true ∧
    (runGanacheStep [PEvent.chunk "Listening on 127.0.0.1:7545".data,
        PEvent.exit (some 1), PEvent.settleFire]).outcome
      = some (POutcome.exitedEarly 1) :=
  ⟨by decide, by decide⟩

/-- C8 amended: if the timeout fires while the step is pending and no
match has occurred, the step fails with the startup timeout; once the
readiness flag is set by a match, the timeout callback is inert (the
timer is guarded by the flag rather than cleared) and leaves the state
completely unchanged, so it can never fail an already-matched step.
What does not hold in general is that the first of match, exit and
timeout decides the outcome: in the ganache step a nonzero exit during
the post-match settle delay still rejects. -/
theorem timeout_disarmed_after_match (marker : Str) (d : Bool) (st : PState) :
    (st.outcome = none → st.ready = false →
        (pstep marker d st PEvent.timeoutFire).outcome = some POutcome.startupTimeout) ∧
    (st.ready = true → pstep marker d st PEvent.timeoutFire = st) := by
  constructor
  · intro h1 h2
    simp [pstep, h2, settleOnce, h1]
  · intro h
    simp [pstep, h]

theorem timeout_disarmed_after_match_witness :
    (pstep serverMarker false pInit PEvent.timeoutFire).outcome
      = some POutcome.startupTimeout ∧
    pstep listeningMarker true ⟨true, true, none⟩ PEvent.timeoutFire = ⟨true, true, none⟩ :=
  ⟨(timeout_disarmed_after_match serverMarker false pInit).1 rfl rfl,
   (timeout_disarmed_after_match listeningMarker true ⟨true, true, none⟩).2 rfl⟩

/-- C9: if the deployment process exits with code 0 and no chunk ever
matched the address or network-identifier pattern, the step resolves
successfully with both values empty; the declaration written for the
empty value is const networkId = (quote)(quote); and the config patch
rewrites the matched span to it instead of failing. -/
theorem deploy_no_match_yields_empty_values (chunks : List Str)
    (ha : ∀ c ∈ chunks, scanAddr c = none) (hn : ∀ c ∈ chunks, scanNetId c = none) :
    deployClose (deployScan chunks) (some 0) = Except.ok (([] : Str), ([] : Str)) ∧
    decl [] = declBody ++ [quoteC, quoteC, ';'] ∧
    ∀ s p len, findDecl s = some (p, len) →
      updateServerConfig s [] = s.take p ++ decl [] ++ s.drop (p + len) := by
  refine ⟨?_, ?_, ?_⟩
  · rw [deployScan_none chunks ha hn]
    rfl
  · simp [decl, declHead]
  · intro s p len h
    simp [updateServerConfig, replaceNetworkId, h]

theorem deploy_no_match_yields_empty_values_witness :
    deployClose (deployScan ["Saving artifacts".data]) (some 0)
      = Except.ok (([] : Str), ([] : Str)) ∧
    updateServerConfig (decl "5777".data) [] = decl [] := by
  have h := deploy_no_match_yields_empty_values ["Saving artifacts".data]
    (by decide) (by decide)
  refine ⟨h.1, ?_⟩
  have h2 := h.2.2 (decl "5777".data) 0 ((decl "5777".data).length) (by decide)
  simpa using h2

/-- C10: once a readiness step has resolved successfully, a later exit
of its process — whatever the code — lands on an already settled
promise: the rejection is a no-op and the step outcome stays success,
so the pipeline never transitions to failed because of a
post-readiness crash. -/
theorem post_success_exit_rejection_noop (marker : Str) (d : Bool) (st : PState)
    (code : Option Int) (h : st.outcome = some POutcome.success) :
    (pstep marker d st (PEvent.exit code)).outcome = some POutcome.success := by
  cases code with
  | none => simp [pstep, h]
  | some k =>
      by_cases hk : k = 0
      · simp [pstep, hk, h]
      · simp [pstep, hk, settleOnce, h]

theorem post_success_exit_rejection_noop_witness :
    (pstep serverMarker false ⟨true, false, some POutcome.success⟩
        (PEvent.exit (some 137))).outcome = some POutcome.success :=
  post_success_exit_rejection_noop serverMarker false ⟨true, false, some POutcome.success⟩
    (some 137) rfl

end Agrichain
